import Mathlib

/-!
Verification development for the JSONPlaceholder ETL repository.

The definitions below are a shallow embedding of the Python sources:
  - `tap_jsonplaceholder/data_analyzer.py` (class `JSONPlaceholderAnalyzer`):
    ingestion of the Singer tap output (`load_data`) and the three analyses
    (`analyze_user_activity`, `analyze_comment_patterns`,
    `analyze_post_engagement`);
  - `tap_jsonplaceholder/tap_jsonplaceholder/streams.py`: the
    `parse_response` overrides of `PostsStream` and `CommentsStream`.

Python dicts are modelled as association lists (`List (κ × β)`) so that both
insertion order (Python 3.7+ dicts preserve it) and overwrite-in-place
semantics are captured.  Machine integers are `Int`/`Nat`; Python float
division is modelled with `Rat`.  Python's stable `sorted` (also with
`reverse=True`) and `Counter.most_common` are modelled with
`List.insertionSort` under a "greater-or-equal key" relation, which is the
unique stable descending sort.
-/

namespace ETL

/-- The fields of a `users` stream record that `data_analyzer.py` reads
(only `username` is consulted, via `users.get(id, {}).get('username', ...)`);
the record is stored keyed by its `id` in the analyzer's `users` dict. -/
structure UserRec where
  username : String
deriving DecidableEq, Repr

/-- A `posts` stream record: `{userId, id, title, body}`
(shape from `streams.py` / spec section 6). -/
structure Post where
  userId : Int
  id : Int
  title : String
  body : String
deriving DecidableEq, Repr

/-- A `comments` stream record: `{postId, id, name, email, body}`
(`name` is never read by the analyzer and is omitted). -/
structure Comment where
  postId : Int
  id : Int
  email : String
  body : String
deriving DecidableEq, Repr

/-! ### Association-list model of Python dicts -/

/-- First-match lookup in an association list (Python `d[k]` / `d.get(k)`;
keys are unique in every list this development builds). -/
def lookupAssoc {κ β : Type} [DecidableEq κ] : List (κ × β) → κ → Option β
  | [], _ => none
  | e :: t, k => if e.1 = k then some e.2 else lookupAssoc t k

/-- `updAssoc m k d g` models `m[k] = g(m.get(k, d))`: the value at an
existing key is replaced in place (the key keeps its position, as in a
Python dict), and a missing key is appended at the end with value `g d`.
This single primitive covers plain dict assignment (`g` constant),
`defaultdict` updates and `Counter` increments. -/
def updAssoc {κ β : Type} [DecidableEq κ] (m : List (κ × β)) (k : κ) (d : β)
    (g : β → β) : List (κ × β) :=
  match m with
  | [] => [(k, g d)]
  | e :: t => if e.1 = k then (e.1, g e.2) :: t else e :: updAssoc t k d g

/-- Python dict assignment `m[k] = v` (overwrite on duplicate key). -/
def setAssoc {κ β : Type} [DecidableEq κ] (m : List (κ × β)) (k : κ) (v : β) :
    List (κ × β) :=
  updAssoc m k v (fun _ => v)

/-- `Counter`-style increment: `ctr[k] += 1` with default `0`. -/
def bump {κ : Type} [DecidableEq κ] (c : List (κ × Nat)) (k : κ) :
    List (κ × Nat) :=
  updAssoc c k 0 (fun n => n + 1)

/-! ### String helpers mirroring the Python primitives -/

/-- Python `str.lower()`; a string is worked on as its character list
(ASCII case mapping, which covers the repository's data). -/
def lowerStr (s : String) : String :=
  String.mk (s.data.map Char.toLower)

/-- Python `str.split()` with no argument: split on whitespace runs,
dropping empty pieces. -/
def pyWordSplit (s : String) : List (List Char) :=
  (s.data.splitOnP Char.isWhitespace).filter (fun w => w ≠ [])

/-- `len(body.split())`, the analyzer's word count of a post body. -/
def wordCount (s : String) : Nat :=
  (pyWordSplit s).length

/-- Python substring test `needle in hay` (`in` on `str`). -/
def containsStr (hay needle : String) : Bool :=
  hay.data.tails.any (fun t => needle.data.isPrefixOf t)

/-- `email.lower().split('@')[-1]`: the domain taken by
`analyze_comment_patterns` — the piece after the last `@` (the whole
string when no `@` occurs). -/
def emailDomain (email : String) : String :=
  String.mk (((lowerStr email).data.splitOnP (fun c => c == '@')).getLastD [])

/-- The fixed positive lexicon `simple_sentiment_pos` (a Python set literal;
only the count of matching members is ever used, so a list is faithful). -/
def posLex : List String :=
  ["good", "great", "awesome", "excellent", "happy", "thanks"]

/-- The fixed negative lexicon `simple_sentiment_neg`. -/
def negLex : List String :=
  ["bad", "poor", "terrible", "awful", "sad", "wrong"]

/-- `sum(1 for word in lex if word in body.lower())`: number of lexicon words
occurring as substrings of the lowercased body. -/
def lexHits (lex : List String) (body : String) : Nat :=
  lex.countP (fun w => containsStr (lowerStr body) w)

/-! ### Stable descending sort (Python `sorted(..., reverse=True)` and
`Counter.most_common`) -/

/-- The "comes first" relation of a descending sort by the numeric key `f`:
`a` may precede `b` iff `f b ≤ f a`.  `List.insertionSort` under this
relation is the unique stable descending sort by `f`, which is what both
Python's `sorted(key=f, reverse=True)` and `Counter.most_common` produce. -/
def keyGE {α : Type} (f : α → Nat) (a b : α) : Prop :=
  f b ≤ f a

instance {α : Type} (f : α → Nat) : DecidableRel (keyGE f) :=
  fun a b => decidable_of_iff (f b ≤ f a) Iff.rfl

instance {α : Type} (f : α → Nat) : IsTotal α (keyGE f) :=
  ⟨fun a b => (Nat.le_total (f b) (f a)).imp (fun h => h) (fun h => h)⟩

instance {α : Type} (f : α → Nat) : IsTrans α (keyGE f) :=
  ⟨fun _ _ _ hab hbc => Nat.le_trans hbc hab⟩

/-- Stable descending sort by key `f`, then keep the first `n` elements:
`sorted(l, key=f, reverse=True)[:n]`, and also `Counter.most_common(n)`
when applied to the counter's insertion-ordered item list. -/
def stableTopBy {α : Type} (f : α → Nat) (n : Nat) (l : List α) : List α :=
  (List.insertionSort (keyGE f) l).take n

/-- `Counter.most_common(n)` on a counter held in first-encountered key
order. -/
def mostCommon (n : Nat) (c : List (String × Nat)) : List (String × Nat) :=
  stableTopBy Prod.snd n c

/-! ### `analyze_user_activity` (data_analyzer.py lines 69-108) -/

/-- One value of the `user_metrics` defaultdict.  The Python default value
(lines 75-81) has no `username` key, hence `Option String` with default
`none`; the averages loop (lines 102-106) fills it in. -/
structure UserMetrics where
  post_count : Nat
  total_comments_received : Nat
  avg_comments_per_post : Rat
  total_words_in_posts : Nat
  avg_post_length : Rat
  username : Option String
deriving DecidableEq, Repr

/-- The default value of the `user_metrics` defaultdict (lines 75-81). -/
def umInit : UserMetrics :=
  { post_count := 0
    total_comments_received := 0
    avg_comments_per_post := 0
    total_words_in_posts := 0
    avg_post_length := 0
    username := none }

/-- First pass over posts (lines 84-88): count posts and words per userId. -/
def uaPostStep (m : List (Int × UserMetrics)) (p : Post) :
    List (Int × UserMetrics) :=
  updAssoc m p.userId umInit (fun u =>
    { u with
      post_count := u.post_count + 1
      total_words_in_posts := u.total_words_in_posts + wordCount p.body })

/-- Second pass over posts (lines 96-99): add `len(post_comments[post.id])`,
the number of ingested comments whose `postId` equals the post's `id`
(the `post_comments` grouping of lines 91-93). -/
def uaCommentStep (comments : List Comment) (m : List (Int × UserMetrics))
    (p : Post) : List (Int × UserMetrics) :=
  updAssoc m p.userId umInit (fun u =>
    { u with
      total_comments_received :=
        u.total_comments_received +
          (comments.filter (fun c => c.postId = p.id)).length })

/-- The averages loop body (lines 102-106), acting on one metrics value:
when `post_count > 0`, fill in the two averages and resolve the username
(`users.get(user_id, {}).get('username', f'User {user_id}')`). -/
def uaFinVal (users : List (Int × UserRec)) (k : Int) (u : UserMetrics) :
    UserMetrics :=
  if u.post_count > 0 then
    { u with
      avg_comments_per_post :=
        (u.total_comments_received : Rat) / (u.post_count : Rat)
      avg_post_length :=
        (u.total_words_in_posts : Rat) / (u.post_count : Rat)
      username := some (match lookupAssoc users k with
        | some usr => usr.username
        | none => "User " ++ toString k) }
  else u

/-- The averages loop (lines 102-106) on one `user_metrics` entry: the loop
mutates each key's value in place. -/
def uaFinalize (users : List (Int × UserRec)) (e : Int × UserMetrics) :
    Int × UserMetrics :=
  (e.1, uaFinVal users e.1 e.2)

/-- `JSONPlaceholderAnalyzer.analyze_user_activity` (lines 69-108).
Returns the empty map when no users were ingested (lines 71-73). -/
def analyze_user_activity (users : List (Int × UserRec)) (posts : List Post)
    (comments : List Comment) : List (Int × UserMetrics) :=
  if users.isEmpty then []
  else
    let m1 := posts.foldl uaPostStep []
    let m2 := posts.foldl (uaCommentStep comments) m1
    m2.map (uaFinalize users)

/-! ### `analyze_comment_patterns` (data_analyzer.py lines 110-168) -/

/-- The `sentiment_indicators` sub-dict. -/
structure SentimentIndicators where
  positive_words : Nat
  negative_words : Nat
  question_comments : Nat
deriving DecidableEq, Repr

/-- The result of `analyze_comment_patterns`.  The Python result also
carries `comments_by_hour` (a defaultdict that is never written, so always
empty) and the un-truncated `word_frequency` counter; neither is consumed
anywhere and both are omitted from this projection of the result. -/
structure CommentMetrics where
  total_comments : Nat
  avg_comment_length : Rat
  common_email_domains : List (String × Nat)
  sentiment_indicators : SentimentIndicators
  most_common_words : List (String × Nat)
deriving DecidableEq, Repr

/-- `JSONPlaceholderAnalyzer.analyze_comment_patterns` (lines 110-168).
The single Python loop over `self.comments` (lines 143-161) is decomposed
into one fold per accumulated field; each fold performs exactly the update
that the corresponding loop lines perform. -/
def analyze_comment_patterns (comments : List Comment) : CommentMetrics :=
  if comments.isEmpty then
    { total_comments := 0
      avg_comment_length := 0
      common_email_domains := []
      sentiment_indicators :=
        { positive_words := 0, negative_words := 0, question_comments := 0 }
      most_common_words := [] }
  else
    let total_length : Nat := comments.foldl (fun a c => a + c.body.length) 0
    { total_comments := comments.length
      avg_comment_length :=
        if comments.length = 0 then 0
        else (total_length : Rat) / (comments.length : Rat)
      common_email_domains :=
        mostCommon 5
          (comments.foldl (fun ctr c => bump ctr (emailDomain c.email)) [])
      sentiment_indicators :=
        { positive_words :=
            comments.foldl (fun a c => a + lexHits posLex c.body) 0
          negative_words :=
            comments.foldl (fun a c => a + lexHits negLex c.body) 0
          question_comments :=
            comments.countP (fun c => c.body.data.contains '?') }
      most_common_words :=
        mostCommon 10
          (comments.foldl
            (fun ctr c =>
              ((pyWordSplit (lowerStr c.body)).map String.mk).foldl bump ctr)
            []) }

/-! ### `analyze_post_engagement` (data_analyzer.py lines 170-239) -/

/-- The `posts_by_length` buckets. -/
structure PostsByLength where
  short : Nat
  medium : Nat
  long : Nat
deriving DecidableEq, Repr

/-- The `title_length_stats` sub-dict. -/
structure TitleLengthStats where
  min : Nat
  max : Nat
  avg : Rat
  median : Rat
deriving DecidableEq, Repr

/-- One entry of `post_engagement_metrics` (lines 223-230). -/
structure EngagingPost where
  post_id : Int
  title : String
  user_id : Int
  comment_count : Nat
deriving DecidableEq, Repr

/-- The result of `analyze_post_engagement`. -/
structure PostMetrics where
  total_posts : Nat
  posts_by_length : PostsByLength
  title_length_stats : TitleLengthStats
  most_engaging_posts : List EngagingPost
  engagement_by_user : List (Int × Nat)
deriving DecidableEq, Repr

/-- Python `min(l)` on a nonempty list of naturals (0 on `[]`, which the
source never reaches: the call is guarded by `if title_lengths`). -/
def pyMin : List Nat → Nat
  | [] => 0
  | x :: xs => xs.foldl Nat.min x

/-- Python `max(l)` on a nonempty list of naturals. -/
def pyMax : List Nat → Nat
  | [] => 0
  | x :: xs => xs.foldl Nat.max x

/-- `statistics.mean` on naturals: sum over length as a rational. -/
def pyMean (l : List Nat) : Rat :=
  (l.sum : Rat) / (l.length : Rat)

/-- `statistics.median` on naturals: sort; the middle element for odd
length, the mean of the two middle elements for even length. -/
def pyMedian (l : List Nat) : Rat :=
  let s := List.insertionSort (fun a b => a ≤ b) l
  let n := s.length
  if n % 2 = 1 then (s.getD (n / 2) 0 : Nat)
  else ((s.getD (n / 2 - 1) 0 + s.getD (n / 2) 0 : Nat) : Rat) / 2

/-- `post_engagement_metrics` (lines 218-230): one entry per post, in
ingestion order, whose `comment_count` is the size of the post's group in
the `post_engagement` grouping of comments by `postId`. -/
def engagementList (posts : List Post) (comments : List Comment) :
    List EngagingPost :=
  posts.map (fun p =>
    { post_id := p.id
      title := p.title
      user_id := p.userId
      comment_count := (comments.filter (fun c => c.postId = p.id)).length })

/-- `JSONPlaceholderAnalyzer.analyze_post_engagement` (lines 170-239).
`most_engaging_posts` is `sorted(post_engagement_metrics,
key=comment_count, reverse=True)[:5]` — Python's `sorted` is stable, also
with `reverse=True`, which `stableTopBy` reproduces. -/
def analyze_post_engagement (posts : List Post) (comments : List Comment) :
    PostMetrics :=
  if posts.isEmpty then
    { total_posts := 0
      posts_by_length := { short := 0, medium := 0, long := 0 }
      title_length_stats := { min := 0, max := 0, avg := 0, median := 0 }
      most_engaging_posts := []
      engagement_by_user := [] }
  else
    let title_lengths := posts.map (fun p => p.title.length)
    { total_posts := posts.length
      posts_by_length :=
        posts.foldl (fun b p =>
          let words := wordCount p.body
          if words < 100 then { b with short := b.short + 1 }
          else if words < 200 then { b with medium := b.medium + 1 }
          else { b with long := b.long + 1 })
          { short := 0, medium := 0, long := 0 }
      title_length_stats :=
        if title_lengths.isEmpty then
          { min := 0, max := 0, avg := 0, median := 0 }
        else
          { min := pyMin title_lengths
            max := pyMax title_lengths
            avg := pyMean title_lengths
            median := pyMedian title_lengths }
      most_engaging_posts :=
        stableTopBy EngagingPost.comment_count 5 (engagementList posts comments)
      engagement_by_user :=
        posts.foldl (fun m p =>
          updAssoc m p.userId 0 (fun n =>
            n + (comments.filter (fun c => c.postId = p.id)).length)) [] }

/-! ### `load_data` (data_analyzer.py lines 37-54)

One line of the tap output either fails (a `json.JSONDecodeError`, or any
other exception such as a `KeyError` for a missing `type`/`stream`/
`record`/`id` field — both are caught by `continue` and skip the line), or
is a message with a `type`, a `stream` and a `record` payload.  The payload
is abstracted to the `id` field the loader reads plus an opaque tag that
keeps distinct records distinct. -/

/-- A record payload: its `id` field plus an opaque identity tag. -/
structure TapRecord where
  rid : Int
  tag : Nat
deriving DecidableEq, Repr

/-- One line of the tap output, as seen by the loader's per-line loop. -/
inductive TapLine where
  | malformed : TapLine
  | msg (ty : String) (stream : String) (record : TapRecord) : TapLine
deriving DecidableEq, Repr

/-- The analyzer's ingested state: `self.users`, `self.posts`,
`self.comments`. -/
structure LoadState where
  users : List (Int × TapRecord)
  posts : List TapRecord
  comments : List TapRecord
deriving DecidableEq, Repr

/-- The body of the per-line loop (lines 38-54): a parsed `RECORD` message
is routed on its stream name (`users` keyed by `record['id']` with
overwrite, `posts`/`comments` appended); everything else leaves the state
unchanged. -/
def loadLine (s : LoadState) : TapLine → LoadState
  | TapLine.malformed => s
  | TapLine.msg ty stream r =>
    if ty = "RECORD" then
      if stream = "users" then { s with users := setAssoc s.users r.rid r }
      else if stream = "posts" then { s with posts := s.posts ++ [r] }
      else if stream = "comments" then
        { s with comments := s.comments ++ [r] }
      else s
    else s

/-- `JSONPlaceholderAnalyzer.load_data` (lines 37-54), restricted to its
per-line ingestion semantics (file opening and encoding fallback are I/O
concerns outside the engine, per spec section 6). -/
def load_data (lines : List TapLine) : LoadState :=
  lines.foldl loadLine { users := [], posts := [], comments := [] }

/-- Whether a line contributes to the ingested state: a `RECORD` message of
one of the three known streams. -/
def keptLine : TapLine → Bool
  | TapLine.malformed => false
  | TapLine.msg ty stream _ =>
    decide (ty = "RECORD") &&
      (decide (stream = "users") || decide (stream = "posts") ||
        decide (stream = "comments"))

/-- The post payload of a line, when it is a `RECORD` of stream `posts`. -/
def postRecordOf : TapLine → Option TapRecord
  | TapLine.malformed => none
  | TapLine.msg ty stream r =>
    if ty = "RECORD" ∧ stream = "posts" then some r else none

/-- The comment payload of a line, when it is a `RECORD` of stream
`comments`. -/
def commentRecordOf : TapLine → Option TapRecord
  | TapLine.malformed => none
  | TapLine.msg ty stream r =>
    if ty = "RECORD" ∧ stream = "comments" then some r else none

/-- The user payload of a line, when it is a `RECORD` of stream `users`
whose record id is `i`. -/
def userRecordOf (i : Int) : TapLine → Option TapRecord
  | TapLine.malformed => none
  | TapLine.msg ty stream r =>
    if ty = "RECORD" ∧ stream = "users" ∧ r.rid = i then some r else none

/-! ### `PostsStream.parse_response` / `CommentsStream.parse_response`
(streams.py lines 98-111 and 133-146) -/

/-- A fetched post record; `meta` is whether a `_metadata` block of
validation errors has been attached to it. -/
structure ApiPost where
  userId : Int
  id : Int
  title : String
  body : String
  meta : Bool
deriving DecidableEq, Repr

/-- A fetched comment record; `meta` as in `ApiPost`. -/
structure ApiComment where
  postId : Int
  id : Int
  name : String
  email : String
  body : String
  meta : Bool
deriving DecidableEq, Repr

/-- `PostsStream.parse_response` (lines 98-111): yield each fetched record
whose `id` is even, first attaching `_metadata` when the validator rejects
it; records with odd `id` are not examined further.  The `PostValidator` is
abstracted to a boolean predicate parameter. -/
def postsParseResponse (validate : ApiPost → Bool) : List ApiPost → List ApiPost
  | [] => []
  | r :: rs =>
    if r.id % 2 = 0 then
      (if validate r then r else { r with meta := true }) ::
        postsParseResponse validate rs
    else postsParseResponse validate rs

/-- `CommentsStream.parse_response` (lines 133-146): as for posts, but the
evenness test is on `postId`. -/
def commentsParseResponse (validate : ApiComment → Bool) :
    List ApiComment → List ApiComment
  | [] => []
  | r :: rs =>
    if r.postId % 2 = 0 then
      (if validate r then r else { r with meta := true }) ::
        commentsParseResponse validate rs
    else commentsParseResponse validate rs

/-- Forget the `_metadata` flag of a fetched post record. -/
def stripMetaP (r : ApiPost) : ApiPost :=
  { r with meta := false }

/-- Forget the `_metadata` flag of a fetched comment record. -/
def stripMetaC (r : ApiComment) : ApiComment :=
  { r with meta := false }

/-! ### First-encountered order (spec wording for tie-breaks) -/

/-- Modelled from the spec: the keys of a stream of values "in
first-encountered order" (spec sections 4.3 and 8's tie-break rule) — each
value is appended the first time it occurs and ignored afterwards. -/
def firstOccurrences (l : List String) : List String :=
  l.foldl (fun acc d => if d ∈ acc then acc else acc ++ [d]) []

/-- The counter built by the `Counter`/`+= 1` updates of
`analyze_comment_patterns`, as a standalone function of the counted
stream. -/
def counterOf (l : List String) : List (String × Nat) :=
  l.foldl bump []

/-! ## Generic association-list lemmas -/

theorem lookupAssoc_updAssoc_self {κ β : Type} [DecidableEq κ]
    (m : List (κ × β)) (k : κ) (d : β) (g : β → β) :
    lookupAssoc (updAssoc m k d g) k = some (g ((lookupAssoc m k).getD d)) := by
  induction m with
  | nil => simp [updAssoc, lookupAssoc]
  | cons a t ih =>
    by_cases h : a.1 = k
    · simp [updAssoc, lookupAssoc, h]
    · simp [updAssoc, lookupAssoc, h, ih]

theorem lookupAssoc_updAssoc_ne {κ β : Type} [DecidableEq κ]
    (m : List (κ × β)) (k q : κ) (d : β) (g : β → β) (h : k ≠ q) :
    lookupAssoc (updAssoc m k d g) q = lookupAssoc m q := by
  induction m with
  | nil => simp [updAssoc, lookupAssoc, h]
  | cons a t ih =>
    by_cases ha : a.1 = k
    · simp [updAssoc, lookupAssoc, ha, h]
    · by_cases haq : a.1 = q <;>
        simp [updAssoc, lookupAssoc, ha, haq, h, Ne.symm h, ih]

theorem updAssoc_forall {κ β : Type} [DecidableEq κ]
    {P : β → Prop} {m : List (κ × β)} (k : κ) {d : β} {g : β → β}
    (hm : ∀ e ∈ m, P e.2) (hg : ∀ u, P u → P (g u)) (hd : P d) :
    ∀ e ∈ updAssoc m k d g, P e.2 := by
  induction m with
  | nil =>
    intro e he
    simp [updAssoc] at he
    simpa [he] using hg d hd
  | cons a t ih =>
    intro e he
    by_cases h : a.1 = k
    · simp only [updAssoc, if_pos h] at he
      rcases List.mem_cons.mp he with he | he
      · simpa [he] using hg a.2 (hm a (List.mem_cons_self a t))
      · exact hm e (List.mem_cons_of_mem a he)
    · simp only [updAssoc, if_neg h] at he
      rcases List.mem_cons.mp he with he | he
      · exact he ▸ hm a (List.mem_cons_self a t)
      · exact ih (fun x hx => hm x (List.mem_cons_of_mem a hx)) e he

theorem lookupAssoc_map {κ β γ : Type} [DecidableEq κ]
    (g : κ → β → γ) (m : List (κ × β)) (q : κ) :
    lookupAssoc (m.map (fun e => (e.1, g e.1 e.2))) q =
      (lookupAssoc m q).map (g q) := by
  induction m with
  | nil => simp [lookupAssoc]
  | cons a t ih =>
    by_cases h : a.1 = q
    · subst h
      simp [lookupAssoc]
    · simp [lookupAssoc, h, ih]

/-! ## C9: empty users map short-circuits analyze_user_activity -/

/-- C9: if the ingested `users` map is empty, `analyze_user_activity`
returns the empty map regardless of how many posts or comments were
ingested (the guard at data_analyzer.py lines 71-73), so no per-user
metrics — orphan entries included — are produced for a user-less input. -/
theorem user_activity_empty_users (posts : List Post)
    (comments : List Comment) :
    analyze_user_activity [] posts comments = [] :=
  rfl

/-! ## C2: zero posts and zero comments give structurally complete,
all-zero results -/

/-- C2: on an input with zero ingested posts and zero ingested comments,
each of the three analyses returns its structurally complete zero result —
every numeric field `0` and every collection field empty — and, being
total Lean functions, none of them can fail. -/
theorem empty_input_all_zero (users : List (Int × UserRec)) :
    analyze_user_activity users [] [] = [] ∧
    analyze_comment_patterns [] =
      { total_comments := 0
        avg_comment_length := 0
        common_email_domains := []
        sentiment_indicators :=
          { positive_words := 0, negative_words := 0, question_comments := 0 }
        most_common_words := [] } ∧
    analyze_post_engagement [] [] =
      { total_posts := 0
        posts_by_length := { short := 0, medium := 0, long := 0 }
        title_length_stats := { min := 0, max := 0, avg := 0, median := 0 }
        most_engaging_posts := []
        engagement_by_user := [] } := by
  refine ⟨?_, rfl, rfl⟩
  cases users with
  | nil => rfl
  | cons u t => rfl

/-! ## C3: the post_count entries sum to the number of ingested posts -/

/-- Sum of `post_count` over all entries of a user-metrics map. -/
def sumPC (m : List (Int × UserMetrics)) : Nat :=
  (m.map (fun e => e.2.post_count)).sum

theorem sumPC_updAssoc_incr (m : List (Int × UserMetrics)) (k : Int)
    {d : UserMetrics} {g : UserMetrics → UserMetrics}
    (hg : ∀ u, (g u).post_count = u.post_count + 1) (hd : d.post_count = 0) :
    sumPC (updAssoc m k d g) = sumPC m + 1 := by
  induction m with
  | nil => simp [sumPC, updAssoc, hg, hd]
  | cons a t ih =>
    by_cases h : a.1 = k
    · simp only [updAssoc, if_pos h, sumPC, List.map_cons, List.sum_cons, hg]
      simp [sumPC] at *
      omega
    · simp only [updAssoc, if_neg h, sumPC, List.map_cons, List.sum_cons] at *
      omega

theorem sumPC_updAssoc_pres (m : List (Int × UserMetrics)) (k : Int)
    {d : UserMetrics} {g : UserMetrics → UserMetrics}
    (hg : ∀ u, (g u).post_count = u.post_count) (hd : d.post_count = 0) :
    sumPC (updAssoc m k d g) = sumPC m := by
  induction m with
  | nil => simp [sumPC, updAssoc, hg, hd]
  | cons a t ih =>
    by_cases h : a.1 = k
    · simp only [updAssoc, if_pos h, sumPC, List.map_cons, List.sum_cons, hg]
    · simp only [updAssoc, if_neg h, sumPC, List.map_cons, List.sum_cons] at *
      omega

theorem sumPC_foldl_post (posts : List Post) (m : List (Int × UserMetrics)) :
    sumPC (posts.foldl uaPostStep m) = sumPC m + posts.length := by
  induction posts generalizing m with
  | nil => simp
  | cons p ps ih =>
    have hstep : sumPC (uaPostStep m p) = sumPC m + 1 :=
      sumPC_updAssoc_incr m p.userId (fun u => rfl) rfl
    simp only [List.foldl_cons, ih, hstep, List.length_cons]
    omega

theorem sumPC_foldl_comment (comments : List Comment) (posts : List Post)
    (m : List (Int × UserMetrics)) :
    sumPC (posts.foldl (uaCommentStep comments) m) = sumPC m := by
  induction posts generalizing m with
  | nil => simp
  | cons p ps ih =>
    have hstep : sumPC (uaCommentStep comments m p) = sumPC m :=
      sumPC_updAssoc_pres m p.userId (fun u => rfl) rfl
    simp only [List.foldl_cons, ih, hstep]

theorem uaFinVal_post_count (users : List (Int × UserRec)) (k : Int)
    (u : UserMetrics) : (uaFinVal users k u).post_count = u.post_count := by
  unfold uaFinVal
  split <;> rfl

theorem sumPC_map_finalize (users : List (Int × UserRec))
    (m : List (Int × UserMetrics)) :
    sumPC (m.map (uaFinalize users)) = sumPC m := by
  have hfun : ((fun (e : Int × UserMetrics) => e.2.post_count) ∘
      uaFinalize users) = (fun (e : Int × UserMetrics) => e.2.post_count) := by
    funext e
    simp [uaFinalize, uaFinVal_post_count]
  unfold sumPC
  rw [List.map_map, hfun]

/-- C3 counterexample: with zero ingested users and one ingested post, the
user-activity result is empty, so the claimed identity
"sum of post_count = total number of ingested posts" fails (0 vs 1) —
`analyze_user_activity` short-circuits on an empty users map. -/
theorem post_count_sum_userless_counterexample :
    sumPC (analyze_user_activity [] [⟨1, 1, "ti", "bo"⟩] []) ≠
      ([(⟨1, 1, "ti", "bo"⟩ : Post)]).length := by
  decide

/-- C3 (amended): provided at least one user was ingested, the sum of
`post_count` over all entries of the user-activity result equals the total
number of ingested posts — every post contributes to exactly one userId
bucket, orphan or not. -/
theorem post_count_sum_eq_total_posts (users : List (Int × UserRec))
    (posts : List Post) (comments : List Comment) (hu : users ≠ []) :
    sumPC (analyze_user_activity users posts comments) = posts.length := by
  obtain ⟨u0, t, rfl⟩ := List.exists_cons_of_ne_nil hu
  simp only [analyze_user_activity, List.isEmpty_cons, Bool.false_eq_true,
    if_false]
  rw [sumPC_map_finalize, sumPC_foldl_comment, sumPC_foldl_post]
  simp [sumPC]

/-- C3 witness: a concrete run with one user and two posts. -/
theorem post_count_sum_eq_total_posts_witness :
    ([((1 : Int), (⟨"alice"⟩ : UserRec))] ≠ []) ∧
    sumPC (analyze_user_activity [(1, ⟨"alice"⟩)]
      [⟨1, 1, "ti", "a b c"⟩, ⟨7, 2, "ti", "d"⟩] []) = 2 :=
  ⟨by decide,
    post_count_sum_eq_total_posts [(1, ⟨"alice"⟩)]
      [⟨1, 1, "ti", "a b c"⟩, ⟨7, 2, "ti", "d"⟩] [] (by decide)⟩

/-! ## C1: an entry per posting userId, with resolved-or-synthesized
username -/

theorem fold1_lookup_pc (uid : Int) :
    ∀ (posts : List Post) (m : List (Int × UserMetrics)),
      ((∃ p ∈ posts, p.userId = uid) ∨
        (∃ w, lookupAssoc m uid = some w ∧ 1 ≤ w.post_count)) →
      ∃ v, lookupAssoc (posts.foldl uaPostStep m) uid = some v ∧
        1 ≤ v.post_count := by
  intro posts
  induction posts with
  | nil =>
    intro m h
    rcases h with ⟨p, hp, _⟩ | h
    · exact absurd hp (List.not_mem_nil p)
    · exact h
  | cons p ps ih =>
    intro m h
    apply ih
    by_cases hp : p.userId = uid
    · right
      have hself : lookupAssoc (uaPostStep m p) uid =
          some ((fun u =>
            { u with
              post_count := u.post_count + 1
              total_words_in_posts :=
                u.total_words_in_posts + wordCount p.body })
            ((lookupAssoc m uid).getD umInit)) := by
        show lookupAssoc (updAssoc m p.userId umInit _) uid = _
        rw [hp]
        exact lookupAssoc_updAssoc_self m uid umInit _
      exact ⟨_, hself, Nat.le_add_left 1 _⟩
    · rcases h with ⟨q, hq, hquid⟩ | ⟨w, hw, hwpc⟩
      · rcases List.mem_cons.mp hq with rfl | hq
        · exact absurd hquid hp
        · exact Or.inl ⟨q, hq, hquid⟩
      · right
        refine ⟨w, ?_, hwpc⟩
        show lookupAssoc (updAssoc m p.userId umInit _) uid = some w
        rw [lookupAssoc_updAssoc_ne _ _ _ _ _ hp, hw]

theorem fold2_lookup_pres (comments : List Comment) (uid : Int) :
    ∀ (posts : List Post) (m : List (Int × UserMetrics)),
      (∃ w, lookupAssoc m uid = some w ∧ 1 ≤ w.post_count) →
      ∃ v, lookupAssoc (posts.foldl (uaCommentStep comments) m) uid = some v ∧
        1 ≤ v.post_count := by
  intro posts
  induction posts with
  | nil => exact fun m h => h
  | cons p ps ih =>
    intro m h
    apply ih
    obtain ⟨w, hw, hwpc⟩ := h
    by_cases hp : p.userId = uid
    · have hself : lookupAssoc (uaCommentStep comments m p) uid =
          some ((fun u =>
            { u with
              total_comments_received :=
                u.total_comments_received +
                  (comments.filter (fun c => c.postId = p.id)).length })
            ((lookupAssoc m uid).getD umInit)) := by
        show lookupAssoc (updAssoc m p.userId umInit _) uid = _
        rw [hp]
        exact lookupAssoc_updAssoc_self m uid umInit _
      rw [hw] at hself
      exact ⟨_, hself, hwpc⟩
    · refine ⟨w, ?_, hwpc⟩
      show lookupAssoc (updAssoc m p.userId umInit _) uid = some w
      rw [lookupAssoc_updAssoc_ne _ _ _ _ _ hp, hw]

/-- C1 counterexample: a state with one ingested post (userId 1) but zero
ingested users.  The claim promises a user-activity entry for userId 1
(with synthesized username "User 1"); the code returns the empty map
because of the empty-users guard at data_analyzer.py lines 71-73. -/
theorem user_activity_userless_counterexample :
    (∃ p ∈ [(⟨1, 1, "ti", "bo"⟩ : Post)], p.userId = 1) ∧
    lookupAssoc (analyze_user_activity [] [⟨1, 1, "ti", "bo"⟩] []) 1 =
      none :=
  ⟨⟨⟨1, 1, "ti", "bo"⟩, List.mem_singleton.mpr rfl, rfl⟩, rfl⟩

/-- C1 (amended): provided at least one user was ingested, the
user-activity result has an entry for every userId with at least one
ingested post — whether or not that userId resolves to an ingested user —
and that entry's username is the resolved user's username when the id
resolves and the synthesized string "User {id}" otherwise. -/
theorem user_activity_entry_for_posting_user (users : List (Int × UserRec))
    (posts : List Post) (comments : List Comment) (uid : Int)
    (hu : users ≠ []) (hp : ∃ p ∈ posts, p.userId = uid) :
    ∃ um, lookupAssoc (analyze_user_activity users posts comments) uid =
        some um ∧
      um.username = some (match lookupAssoc users uid with
        | some usr => usr.username
        | none => "User " ++ toString uid) := by
  obtain ⟨u0, t, rfl⟩ := List.exists_cons_of_ne_nil hu
  obtain ⟨v, hv, hvpc⟩ :=
    fold2_lookup_pres comments uid posts (posts.foldl uaPostStep [])
      (fold1_lookup_pc uid posts [] (Or.inl hp))
  refine ⟨uaFinVal (u0 :: t) uid v, ?_, ?_⟩
  · simp only [analyze_user_activity, List.isEmpty_cons, Bool.false_eq_true,
      if_false]
    rw [show uaFinalize (u0 :: t) =
        (fun (e : Int × UserMetrics) => (e.1, uaFinVal (u0 :: t) e.1 e.2))
      from rfl]
    rw [lookupAssoc_map, hv]
    rfl
  · unfold uaFinVal
    rw [if_pos (show v.post_count > 0 from hvpc)]

/-- C1 witness: one user (id 1, username "alice") and one post by user 1;
the result has an entry for id 1 whose username resolves to "alice". -/
theorem user_activity_entry_for_posting_user_witness :
    ∃ um, lookupAssoc
        (analyze_user_activity [(1, ⟨"alice"⟩)] [⟨1, 2, "ti", "w"⟩] []) 1 =
        some um ∧
      um.username = some "alice" :=
  user_activity_entry_for_posting_user [(1, ⟨"alice"⟩)] [⟨1, 2, "ti", "w"⟩]
    [] 1 (by decide) ⟨⟨1, 2, "ti", "w"⟩, List.mem_singleton.mpr rfl, rfl⟩

/-! ## C4: zero-denominator guards on the averages -/

/-- The two average fields of an accumulating entry stay at their default 0
until the averages loop runs. -/
def avgZero (u : UserMetrics) : Prop :=
  u.avg_comments_per_post = 0 ∧ u.avg_post_length = 0

theorem fold1_avgZero :
    ∀ (posts : List Post) (m : List (Int × UserMetrics)),
      (∀ e ∈ m, avgZero e.2) →
      ∀ e ∈ posts.foldl uaPostStep m, avgZero e.2 := by
  intro posts
  induction posts with
  | nil => exact fun m h => h
  | cons p ps ih =>
    intro m h
    exact ih _ (updAssoc_forall p.userId h
      (fun u hu => ⟨hu.1, hu.2⟩) ⟨rfl, rfl⟩)

theorem fold2_avgZero (comments : List Comment) :
    ∀ (posts : List Post) (m : List (Int × UserMetrics)),
      (∀ e ∈ m, avgZero e.2) →
      ∀ e ∈ posts.foldl (uaCommentStep comments) m, avgZero e.2 := by
  intro posts
  induction posts with
  | nil => exact fun m h => h
  | cons p ps ih =>
    intro m h
    exact ih _ (updAssoc_forall p.userId h
      (fun u hu => ⟨hu.1, hu.2⟩) ⟨rfl, rfl⟩)

/-- C4: the averaging operations never divide by zero.  Every entry of the
user-activity result satisfies the guarded-average equations — the average
is the quotient when `post_count` is nonzero and is left at 0 when it is
zero (the `if metrics['post_count'] > 0` guard at data_analyzer.py lines
103-105) — and `avg_comment_length` is 0 for an empty comment collection
and the quotient otherwise (lines 116 and 163-164).  All three functions
are total, so no state makes them fail. -/
theorem division_guard_zero :
    (∀ (users : List (Int × UserRec)) (posts : List Post)
      (comments : List Comment) (e : Int × UserMetrics),
      e ∈ analyze_user_activity users posts comments →
        (e.2.avg_comments_per_post =
          if e.2.post_count = 0 then 0
          else (e.2.total_comments_received : Rat) / (e.2.post_count : Rat)) ∧
        (e.2.avg_post_length =
          if e.2.post_count = 0 then 0
          else (e.2.total_words_in_posts : Rat) / (e.2.post_count : Rat))) ∧
    (∀ comments : List Comment,
      (analyze_comment_patterns comments).avg_comment_length =
        if comments.length = 0 then 0
        else ((comments.foldl (fun a c => a + c.body.length) 0 : Nat) : Rat) /
          (comments.length : Rat)) := by
  constructor
  · intro users posts comments e he
    cases users with
    | nil => exact absurd he (List.not_mem_nil e)
    | cons u0 t =>
      simp only [analyze_user_activity, List.isEmpty_cons,
        Bool.false_eq_true, if_false] at he
      obtain ⟨e0, he0, rfl⟩ := List.mem_map.mp he
      have hz : avgZero e0.2 :=
        fold2_avgZero comments posts _
          (fold1_avgZero posts [] (fun x hx => absurd hx (List.not_mem_nil x)))
          e0 he0
      by_cases hpc : e0.2.post_count > 0
      · simp [uaFinalize, uaFinVal, hpc, Nat.pos_iff_ne_zero.mp hpc]
      · have h0 : e0.2.post_count = 0 := Nat.eq_zero_of_not_pos hpc
        simp [uaFinalize, uaFinVal, hpc, h0, hz.1, hz.2]
  · intro comments
    cases comments with
    | nil => rfl
    | cons c cs => rfl

/-- C4 witness: a concrete entry (post_count 1) satisfies the guarded
average equations, and the empty comment collection yields average 0. -/
theorem division_guard_zero_witness :
    (((1 : Int),
      (⟨1, 0, ((0 : Nat) : Rat) / ((1 : Nat) : Rat), 2,
        ((2 : Nat) : Rat) / ((1 : Nat) : Rat), some "alice"⟩ : UserMetrics)) ∈
      analyze_user_activity [(1, ⟨"alice"⟩)] [⟨1, 2, "ti", "a b"⟩] []) ∧
    (⟨1, 0, ((0 : Nat) : Rat) / ((1 : Nat) : Rat), 2,
      ((2 : Nat) : Rat) / ((1 : Nat) : Rat), some "alice"⟩ :
        UserMetrics).avg_comments_per_post = 0 ∧
    (analyze_comment_patterns []).avg_comment_length = 0 := by
  have hres : analyze_user_activity [(1, ⟨"alice"⟩)] [⟨1, 2, "ti", "a b"⟩]
      [] = [((1 : Int),
        (⟨1, 0, ((0 : Nat) : Rat) / ((1 : Nat) : Rat), 2,
          ((2 : Nat) : Rat) / ((1 : Nat) : Rat), some "alice"⟩ :
            UserMetrics))] := rfl
  have hmem : (((1 : Int),
      (⟨1, 0, ((0 : Nat) : Rat) / ((1 : Nat) : Rat), 2,
        ((2 : Nat) : Rat) / ((1 : Nat) : Rat), some "alice"⟩ :
          UserMetrics)) ∈
      analyze_user_activity [(1, ⟨"alice"⟩)] [⟨1, 2, "ti", "a b"⟩] []) := by
    rw [hres]
    exact List.mem_singleton.mpr rfl
  have h1 := (division_guard_zero.1 [(1, ⟨"alice"⟩)] [⟨1, 2, "ti", "a b"⟩]
    [] _ hmem).1
  have h2 := division_guard_zero.2 []
  refine ⟨hmem, ?_, ?_⟩
  · exact h1.trans (by norm_num)
  · exact h2.trans (by norm_num)

/-! ## Stable descending sort lemmas (C5, C6) -/

theorem filter_orderedInsert_key {α : Type} (f : α → Nat) (k : Nat) (a : α)
    (l : List α) :
    (l.orderedInsert (keyGE f) a).filter (fun x => f x = k) =
      if f a = k then a :: l.filter (fun x => f x = k)
      else l.filter (fun x => f x = k) := by
  induction l with
  | nil => by_cases h : f a = k <;> simp [List.orderedInsert, h]
  | cons b t ih =>
    by_cases hr : keyGE f a b
    · by_cases h : f a = k <;> simp [List.orderedInsert, hr, h]
    · have hlt : f a < f b := Nat.lt_of_not_le hr
      by_cases hb : f b = k
      · have h : ¬ f a = k := by omega
        simp [List.orderedInsert, hr, hb, h, ih]
      · by_cases h : f a = k <;> simp [List.orderedInsert, hr, hb, h, ih]

theorem filter_insertionSort_key {α : Type} (f : α → Nat) (k : Nat)
    (l : List α) :
    (List.insertionSort (keyGE f) l).filter (fun x => f x = k) =
      l.filter (fun x => f x = k) := by
  induction l with
  | nil => rfl
  | cons a t ih =>
    simp only [List.insertionSort]
    rw [filter_orderedInsert_key, ih]
    by_cases h : f a = k <;> simp [h]

theorem isPrefix_filter {α : Type} (p : α → Bool) {l₁ l₂ : List α}
    (h : l₁ <+: l₂) : l₁.filter p <+: l₂.filter p := by
  obtain ⟨t, rfl⟩ := h
  rw [List.filter_append]
  exact List.prefix_append _ _

theorem stableTopBy_length_le {α : Type} (f : α → Nat) (n : Nat)
    (l : List α) : (stableTopBy f n l).length ≤ n := by
  simp only [stableTopBy, List.length_take]
  exact Nat.min_le_left _ _

theorem stableTopBy_pairwise {α : Type} (f : α → Nat) (n : Nat)
    (l : List α) :
    (stableTopBy f n l).Pairwise (fun a b => f b ≤ f a) :=
  ((List.sorted_insertionSort (keyGE f) l).sublist
    (List.take_sublist n _))

theorem stableTopBy_filter_prefix {α : Type} (f : α → Nat) (n : Nat)
    (l : List α) (k : Nat) :
    (stableTopBy f n l).filter (fun x => f x = k) <+:
      l.filter (fun x => f x = k) := by
  have h1 := isPrefix_filter (fun x => decide (f x = k))
    (List.take_prefix n (List.insertionSort (keyGE f) l))
  rw [filter_insertionSort_key] at h1
  exact h1

theorem stableTopBy_length_eq {α : Type} (f : α → Nat) (n : Nat)
    (l : List α) : (stableTopBy f n l).length = min n l.length := by
  simp only [stableTopBy, List.length_take]
  rw [(List.perm_insertionSort (keyGE f) l).length_eq]

theorem stableTopBy_selection {α : Type} (f : α → Nat) (n : Nat)
    (l : List α) {p q : α} (hq : q ∈ l) (hqn : q ∉ stableTopBy f n l)
    (hp : p ∈ stableTopBy f n l) : f q ≤ f p := by
  have hqs : q ∈ List.insertionSort (keyGE f) l :=
    ((List.perm_insertionSort (keyGE f) l).mem_iff).mpr hq
  have hsorted : (List.insertionSort (keyGE f) l).Pairwise (keyGE f) :=
    List.sorted_insertionSort (keyGE f) l
  rw [← List.take_append_drop n (List.insertionSort (keyGE f) l)]
    at hsorted hqs
  have hdrop : q ∈ (List.insertionSort (keyGE f) l).drop n := by
    rcases List.mem_append.mp hqs with h | h
    · exact absurd h hqn
    · exact h
  exact (List.pairwise_append.mp hsorted).2.2 p hp q hdrop

/-! ## C5: most_engaging_posts is a stable descending top-5 -/

/-- C5: for every ingested state, `most_engaging_posts` is sorted
descending by `comment_count`, has length at most 5, and — the stability
clause — within each comment-count class it is a prefix of the engagement
entries in original ingestion order (Python's `sorted` with `reverse=True`
is stable, so equal counts keep their original relative order). -/
theorem most_engaging_posts_sorted_top5_stable (posts : List Post)
    (comments : List Comment) :
    ((analyze_post_engagement posts comments).most_engaging_posts.length ≤
      5) ∧
    ((analyze_post_engagement posts comments).most_engaging_posts.Pairwise
      (fun a b => b.comment_count ≤ a.comment_count)) ∧
    (∀ k : Nat,
      (analyze_post_engagement posts comments).most_engaging_posts.filter
          (fun x => x.comment_count = k) <+:
        (engagementList posts comments).filter
          (fun x => x.comment_count = k)) := by
  cases posts with
  | nil =>
    refine ⟨by simp [analyze_post_engagement], ?_, ?_⟩
    · simp [analyze_post_engagement]
    · intro k
      show List.filter _ [] <+: _
      simp
  | cons p ps =>
    have hme : (analyze_post_engagement (p :: ps) comments).most_engaging_posts
        = stableTopBy EngagingPost.comment_count 5
            (engagementList (p :: ps) comments) := rfl
    rw [hme]
    exact ⟨stableTopBy_length_le _ _ _, stableTopBy_pairwise _ _ _,
      fun k => stableTopBy_filter_prefix _ _ _ k⟩

/-! ## Counter lemmas (C6) -/

theorem map_fst_updAssoc {κ β : Type} [DecidableEq κ] (m : List (κ × β))
    (k : κ) (d : β) (g : β → β) :
    (updAssoc m k d g).map Prod.fst =
      if k ∈ m.map Prod.fst then m.map Prod.fst
      else m.map Prod.fst ++ [k] := by
  induction m with
  | nil => simp [updAssoc]
  | cons a t ih =>
    by_cases h : a.1 = k
    · simp [updAssoc, h]
    · by_cases hk : k ∈ t.map Prod.fst <;>
        simp [updAssoc, h, hk, ih, Ne.symm h]

theorem lookupAssoc_eq_of_mem {κ β : Type} [DecidableEq κ]
    {m : List (κ × β)} (hnd : (m.map Prod.fst).Nodup) {p : κ × β}
    (hp : p ∈ m) : lookupAssoc m p.1 = some p.2 := by
  induction m with
  | nil => cases hp
  | cons a t ih =>
    rcases List.mem_cons.mp hp with rfl | hp
    · simp [lookupAssoc]
    · have ha : a.1 ≠ p.1 := by
        intro hcontra
        have hmem : p.1 ∈ t.map Prod.fst := List.mem_map_of_mem Prod.fst hp
        rw [← hcontra] at hmem
        exact (List.nodup_cons.mp (by simpa using hnd)).1 hmem
      simp [lookupAssoc, ha,
        ih (List.nodup_cons.mp (by simpa using hnd)).2 hp]

theorem firstOccurrences_append_singleton (l : List String) (d : String) :
    firstOccurrences (l ++ [d]) =
      if d ∈ firstOccurrences l then firstOccurrences l
      else firstOccurrences l ++ [d] := by
  simp [firstOccurrences, List.foldl_append]

theorem counterOf_keys (l : List String) :
    (counterOf l).map Prod.fst = firstOccurrences l := by
  induction l using List.reverseRecOn with
  | nil => rfl
  | append_singleton ls d ih =>
    have hc : counterOf (ls ++ [d]) = bump (counterOf ls) d := by
      simp [counterOf, List.foldl_append]
    rw [hc, firstOccurrences_append_singleton, bump, map_fst_updAssoc, ih]

theorem firstOccurrences_nodup (l : List String) :
    (firstOccurrences l).Nodup := by
  induction l using List.reverseRecOn with
  | nil => exact List.nodup_nil
  | append_singleton ls d ih =>
    rw [firstOccurrences_append_singleton]
    by_cases h : d ∈ firstOccurrences ls
    · simpa [h] using ih
    · simp [h, List.nodup_append, ih]

theorem counterOf_lookup (l : List String) (q : String) :
    lookupAssoc (counterOf l) q =
      if q ∈ l then some (l.count q) else none := by
  induction l using List.reverseRecOn with
  | nil => simp [counterOf, lookupAssoc]
  | append_singleton ls d ih =>
    have hc : counterOf (ls ++ [d]) = bump (counterOf ls) d := by
      simp [counterOf, List.foldl_append]
    rw [hc]
    by_cases hq : q = d
    · subst hq
      rw [bump, lookupAssoc_updAssoc_self, ih]
      by_cases hmem : q ∈ ls <;>
        simp [hmem, List.count_append, List.count_eq_zero.mpr, hmem]
    · rw [bump, lookupAssoc_updAssoc_ne _ _ _ _ _ (Ne.symm hq), ih]
      by_cases hmem : q ∈ ls <;>
        simp [hmem, hq, List.count_append, List.count_singleton]

/-! ## C6: common_email_domains is the stable top-5 domain frequency -/

/-- C6: for every non-empty comment collection, `common_email_domains` (i)
has at most 5 entries, (ii) maps each listed domain to the number of
comments whose lowercased email has that domain after its last `@`, (iii)
is sorted descending by count, (iv) within each count class is a prefix of
the counter in first-encountered order (the stable tie-break), (v) the
counter's keys are exactly the domains in first-encountered order, (vi)
its length is exactly the smaller of 5 and the number of distinct domains
(so every domain is listed when at most 5 exist), and (vii) it selects the
most frequent domains: no counter entry left out of the result has a
higher count than any listed entry. -/
theorem common_email_domains_top5 (comments : List Comment)
    (hne : comments ≠ []) :
    ((analyze_comment_patterns comments).common_email_domains.length ≤ 5) ∧
    (∀ p ∈ (analyze_comment_patterns comments).common_email_domains,
      p.2 = (comments.map (fun x => emailDomain x.email)).count p.1) ∧
    ((analyze_comment_patterns comments).common_email_domains.Pairwise
      (fun p q => q.2 ≤ p.2)) ∧
    (∀ k : Nat,
      (analyze_comment_patterns comments).common_email_domains.filter
          (fun p => p.2 = k) <+:
        (counterOf (comments.map (fun x => emailDomain x.email))).filter
          (fun p => p.2 = k)) ∧
    ((counterOf (comments.map (fun x => emailDomain x.email))).map
        Prod.fst =
      firstOccurrences (comments.map (fun x => emailDomain x.email))) ∧
    ((analyze_comment_patterns comments).common_email_domains.length =
      min 5
        (counterOf (comments.map (fun x => emailDomain x.email))).length) ∧
    (∀ q ∈ counterOf (comments.map (fun x => emailDomain x.email)),
      q ∉ (analyze_comment_patterns comments).common_email_domains →
      ∀ p ∈ (analyze_comment_patterns comments).common_email_domains,
        q.2 ≤ p.2) := by
  obtain ⟨c, cs, rfl⟩ := List.exists_cons_of_ne_nil hne
  have hcd : counterOf ((c :: cs).map (fun x => emailDomain x.email)) =
      (c :: cs).foldl (fun ctr x => bump ctr (emailDomain x.email)) [] := by
    rw [counterOf, List.foldl_map]
  have hres : (analyze_comment_patterns (c :: cs)).common_email_domains =
      mostCommon 5
        ((c :: cs).foldl (fun ctr x => bump ctr (emailDomain x.email)) []) :=
    rfl
  rw [hres, ← hcd]
  refine ⟨stableTopBy_length_le _ _ _, ?_, stableTopBy_pairwise _ _ _,
    fun k => stableTopBy_filter_prefix _ _ _ k, counterOf_keys _,
    stableTopBy_length_eq _ _ _,
    fun q hq hqn p hp => stableTopBy_selection Prod.snd 5 _ hq hqn hp⟩
  intro p hp
  have hmem : p ∈ counterOf ((c :: cs).map (fun x => emailDomain x.email)) :=
    (List.perm_insertionSort (keyGE Prod.snd) _).subset
      (List.take_subset 5 _ hp)
  have hnd : ((counterOf ((c :: cs).map
      (fun x => emailDomain x.email))).map Prod.fst).Nodup := by
    rw [counterOf_keys]
    exact firstOccurrences_nodup _
  have hlk := lookupAssoc_eq_of_mem hnd hmem
  rw [counterOf_lookup] at hlk
  by_cases hin : p.1 ∈ (c :: cs).map (fun x => emailDomain x.email)
  · rw [if_pos hin] at hlk
    exact (Option.some.inj hlk).symm
  · rw [if_neg hin] at hlk
    cases hlk

/-- C6 witness: a single comment with email "A@b.com"; its domain counter
is [("b.com", 1)] and all five clauses hold. -/
theorem common_email_domains_top5_witness :
    ([(⟨2, 1, "A@b.com", "hi"⟩ : Comment)] ≠ []) ∧
    (((analyze_comment_patterns
        [(⟨2, 1, "A@b.com", "hi"⟩ : Comment)]).common_email_domains.length ≤
      5) ∧
    (∀ p ∈ (analyze_comment_patterns
        [(⟨2, 1, "A@b.com", "hi"⟩ : Comment)]).common_email_domains,
      p.2 = ([(⟨2, 1, "A@b.com", "hi"⟩ : Comment)].map
        (fun x => emailDomain x.email)).count p.1) ∧
    ((analyze_comment_patterns
        [(⟨2, 1, "A@b.com", "hi"⟩ : Comment)]).common_email_domains.Pairwise
      (fun p q => q.2 ≤ p.2)) ∧
    (∀ k : Nat,
      (analyze_comment_patterns
          [(⟨2, 1, "A@b.com", "hi"⟩ : Comment)]).common_email_domains.filter
          (fun p => p.2 = k) <+:
        (counterOf ([(⟨2, 1, "A@b.com", "hi"⟩ : Comment)].map
          (fun x => emailDomain x.email))).filter (fun p => p.2 = k)) ∧
    ((counterOf ([(⟨2, 1, "A@b.com", "hi"⟩ : Comment)].map
        (fun x => emailDomain x.email))).map Prod.fst =
      firstOccurrences ([(⟨2, 1, "A@b.com", "hi"⟩ : Comment)].map
        (fun x => emailDomain x.email))) ∧
    ((analyze_comment_patterns
        [(⟨2, 1, "A@b.com", "hi"⟩ : Comment)]).common_email_domains.length =
      min 5 (counterOf ([(⟨2, 1, "A@b.com", "hi"⟩ : Comment)].map
        (fun x => emailDomain x.email))).length) ∧
    (∀ q ∈ counterOf ([(⟨2, 1, "A@b.com", "hi"⟩ : Comment)].map
        (fun x => emailDomain x.email)),
      q ∉ (analyze_comment_patterns
        [(⟨2, 1, "A@b.com", "hi"⟩ : Comment)]).common_email_domains →
      ∀ p ∈ (analyze_comment_patterns
        [(⟨2, 1, "A@b.com", "hi"⟩ : Comment)]).common_email_domains,
        q.2 ≤ p.2)) :=
  ⟨by decide, common_email_domains_top5 [⟨2, 1, "A@b.com", "hi"⟩]
    (by decide)⟩

/-! ## C7: sentiment counters count substring hits per comment -/

/-- C7: appending one comment increments the positive (resp. negative)
sentiment counter by exactly the number of lexicon words occurring as
substrings of the lowercased body (substring containment, not whole-word
match), and increments `question_comments` by exactly 1 when the body
contains a literal `?` and by 0 otherwise; in particular the body
"This is sad but thanks!" scores 1 positive hit (thanks), 1 negative hit
(sad), and no question mark. -/
theorem sentiment_substring_counting :
    (∀ (cs : List Comment) (c : Comment),
      ((analyze_comment_patterns
          (cs ++ [c])).sentiment_indicators.positive_words =
        (analyze_comment_patterns cs).sentiment_indicators.positive_words +
          lexHits posLex c.body) ∧
      ((analyze_comment_patterns
          (cs ++ [c])).sentiment_indicators.negative_words =
        (analyze_comment_patterns cs).sentiment_indicators.negative_words +
          lexHits negLex c.body) ∧
      ((analyze_comment_patterns
          (cs ++ [c])).sentiment_indicators.question_comments =
        (analyze_comment_patterns cs).sentiment_indicators.question_comments
          + (if c.body.data.contains '?' then 1 else 0))) ∧
    (lexHits posLex "This is sad but thanks!" = 1 ∧
      lexHits negLex "This is sad but thanks!" = 1 ∧
      ("This is sad but thanks!".data.contains '?') = false) := by
  constructor
  · intro cs c
    have hpos : ∀ l : List Comment,
        (analyze_comment_patterns l).sentiment_indicators.positive_words =
          l.foldl (fun a x => a + lexHits posLex x.body) 0 := by
      intro l
      cases l with
      | nil => rfl
      | cons x xs => rfl
    have hneg : ∀ l : List Comment,
        (analyze_comment_patterns l).sentiment_indicators.negative_words =
          l.foldl (fun a x => a + lexHits negLex x.body) 0 := by
      intro l
      cases l with
      | nil => rfl
      | cons x xs => rfl
    have hq : ∀ l : List Comment,
        (analyze_comment_patterns l).sentiment_indicators.question_comments =
          l.countP (fun x => x.body.data.contains '?') := by
      intro l
      cases l with
      | nil => rfl
      | cons x xs => rfl
    refine ⟨?_, ?_, ?_⟩
    · rw [hpos, hpos, List.foldl_append]
      rfl
    · rw [hneg, hneg, List.foldl_append]
      rfl
    · rw [hq, hq, List.countP_append]
      simp [List.countP_cons]
  · exact ⟨by decide, by decide, by decide⟩

/-! ## C8: load_data routing semantics -/

theorem load_data_append (lines : List TapLine) (l : TapLine) :
    load_data (lines ++ [l]) = loadLine (load_data lines) l := by
  simp [load_data, List.foldl_append]

theorem loadLine_not_kept (s : LoadState) (l : TapLine)
    (h : keptLine l = false) : loadLine s l = s := by
  cases l with
  | malformed => rfl
  | msg ty stream r =>
    simp only [keptLine, Bool.and_eq_false_iff, Bool.or_eq_false_iff,
      decide_eq_false_iff_not] at h
    rcases h with hty | ⟨⟨hu, hp⟩, hc⟩
    · simp [loadLine, hty]
    · simp [loadLine, hu, hp, hc]

theorem getLast?_append_singleton {α : Type} (l : List α) (a : α) :
    (l ++ [a]).getLast? = some a := by
  induction l with
  | nil => rfl
  | cons x xs ih =>
    rw [List.cons_append]
    cases xs with
    | nil => rfl
    | cons y ys => rw [List.cons_append, List.getLast?_cons_cons,
        ← List.cons_append, ih]

theorem load_data_posts (lines : List TapLine) :
    (load_data lines).posts = lines.filterMap postRecordOf := by
  induction lines using List.reverseRecOn with
  | nil => rfl
  | append_singleton ls l ih =>
    rw [load_data_append, List.filterMap_append]
    cases l with
    | malformed => simpa [loadLine, postRecordOf] using ih
    | msg ty stream r =>
      by_cases hty : ty = "RECORD"
      · by_cases hs : stream = "posts"
        · subst hty
          subst hs
          simp [loadLine, postRecordOf, ih]
        · by_cases hu : stream = "users" <;> by_cases hc : stream = "comments"
          all_goals
            simp [loadLine, postRecordOf, hty, hs, hu, hc, ih]
      · simp [loadLine, postRecordOf, hty, ih]

theorem load_data_comments (lines : List TapLine) :
    (load_data lines).comments = lines.filterMap commentRecordOf := by
  induction lines using List.reverseRecOn with
  | nil => rfl
  | append_singleton ls l ih =>
    rw [load_data_append, List.filterMap_append]
    cases l with
    | malformed => simpa [loadLine, commentRecordOf] using ih
    | msg ty stream r =>
      by_cases hty : ty = "RECORD"
      · by_cases hs : stream = "comments"
        · subst hty
          subst hs
          simp [loadLine, commentRecordOf, ih]
        · by_cases hu : stream = "users" <;> by_cases hp : stream = "posts"
          all_goals
            simp [loadLine, commentRecordOf, hty, hs, hu, hp, ih]
      · simp [loadLine, commentRecordOf, hty, ih]

theorem lookupAssoc_setAssoc_self {κ β : Type} [DecidableEq κ]
    (m : List (κ × β)) (k : κ) (v : β) :
    lookupAssoc (setAssoc m k v) k = some v := by
  rw [setAssoc, lookupAssoc_updAssoc_self]

theorem load_data_users (lines : List TapLine) (i : Int) :
    lookupAssoc (load_data lines).users i =
      (lines.filterMap (userRecordOf i)).getLast? := by
  induction lines using List.reverseRecOn with
  | nil => rfl
  | append_singleton ls l ih =>
    rw [load_data_append, List.filterMap_append]
    cases l with
    | malformed => simpa [loadLine, userRecordOf] using ih
    | msg ty stream r =>
      by_cases hty : ty = "RECORD"
      · by_cases hs : stream = "users"
        · subst hty
          subst hs
          by_cases hr : r.rid = i
          · rw [← hr]
            simp [loadLine, userRecordOf, hr, getLast?_append_singleton,
              lookupAssoc_setAssoc_self]
          · simp [loadLine, userRecordOf, hr,
              lookupAssoc_updAssoc_ne _ _ _ _ _ hr, setAssoc, ih]
        · by_cases hp : stream = "posts" <;> by_cases hc : stream = "comments"
          all_goals
            simp [loadLine, userRecordOf, hty, hs, hp, hc, ih]
      · simp [loadLine, userRecordOf, hty, ih]

theorem load_data_skips (lines : List TapLine) :
    load_data lines = load_data (lines.filter keptLine) := by
  induction lines using List.reverseRecOn with
  | nil => rfl
  | append_singleton ls l ih =>
    rw [load_data_append, List.filter_append]
    by_cases h : keptLine l
    · simp only [List.filter_cons, h, if_pos, List.filter_nil]
      rw [load_data_append, ih]
    · have h0 : keptLine l = false := by simpa using h
      simp only [List.filter_cons, h0, List.filter_nil, List.append_nil,
        Bool.false_eq_true, if_false]
      rw [loadLine_not_kept _ _ h0, ih]

/-- C8: ingestion semantics of `load_data` — posts and comments are
appended in input-line order with duplicates retained; users are keyed by
record id with overwrite on duplicates (the lookup yields the last user
record with that id); and lines that fail to parse, are not `RECORD`
messages, or name an unknown stream are skipped without affecting
ingestion of the remaining lines. -/
theorem load_data_routing (lines : List TapLine) :
    ((load_data lines).posts = lines.filterMap postRecordOf) ∧
    ((load_data lines).comments = lines.filterMap commentRecordOf) ∧
    (∀ i : Int, lookupAssoc (load_data lines).users i =
      (lines.filterMap (userRecordOf i)).getLast?) ∧
    (load_data lines = load_data (lines.filter keptLine)) :=
  ⟨load_data_posts lines, load_data_comments lines,
    fun i => load_data_users lines i, load_data_skips lines⟩

/-! ## C10: parse_response filters on even id / even postId -/

/-- C10: `PostsStream.parse_response` yields exactly the fetched post
records whose `id` is even — in fetched order, each possibly carrying a
`_metadata` tag added by validation — and `CommentsStream.parse_response`
yields exactly the fetched comment records whose `postId` is even; odd
records are dropped before validation (for any validator verdicts) and
never appear in the output stream. -/
theorem parse_response_even_filter (vP : ApiPost → Bool)
    (vC : ApiComment → Bool) (posts : List ApiPost)
    (comments : List ApiComment) :
    ((postsParseResponse vP posts).map stripMetaP =
      (posts.filter (fun r => r.id % 2 = 0)).map stripMetaP) ∧
    ((postsParseResponse vP posts).all (fun r => r.id % 2 == 0) = true) ∧
    ((commentsParseResponse vC comments).map stripMetaC =
      (comments.filter (fun r => r.postId % 2 = 0)).map stripMetaC) ∧
    ((commentsParseResponse vC comments).all
      (fun r => r.postId % 2 == 0) = true) := by
  refine ⟨?_, ?_, ?_, ?_⟩
  · induction posts with
    | nil => rfl
    | cons r rs ih =>
      by_cases h : r.id % 2 = 0
      · have h1 : postsParseResponse vP (r :: rs) =
            (if vP r then r else { r with meta := true }) ::
              postsParseResponse vP rs := by
          simp [postsParseResponse, h]
        have h2 : List.filter (fun x => decide (x.id % 2 = 0)) (r :: rs) =
            r :: List.filter (fun x => decide (x.id % 2 = 0)) rs := by
          simp [List.filter_cons, h]
        rw [h1, h2, List.map_cons, List.map_cons, ih]
        congr 1
        by_cases hv : vP r <;> simp [hv, stripMetaP]
      · have h1 : postsParseResponse vP (r :: rs) =
            postsParseResponse vP rs := by
          simp [postsParseResponse, h]
        have h2 : List.filter (fun x => decide (x.id % 2 = 0)) (r :: rs) =
            List.filter (fun x => decide (x.id % 2 = 0)) rs := by
          simp [List.filter_cons, h]
          omega
        rw [h1, h2, ih]
  · induction posts with
    | nil => rfl
    | cons r rs ih =>
      by_cases h : r.id % 2 = 0
      · have h1 : postsParseResponse vP (r :: rs) =
            (if vP r then r else { r with meta := true }) ::
              postsParseResponse vP rs := by
          simp [postsParseResponse, h]
        rw [h1, List.all_cons, ih, Bool.and_true]
        by_cases hv : vP r <;> simp [hv, h]
      · have h1 : postsParseResponse vP (r :: rs) =
            postsParseResponse vP rs := by
          simp [postsParseResponse, h]
        rw [h1, ih]
  · induction comments with
    | nil => rfl
    | cons r rs ih =>
      by_cases h : r.postId % 2 = 0
      · have h1 : commentsParseResponse vC (r :: rs) =
            (if vC r then r else { r with meta := true }) ::
              commentsParseResponse vC rs := by
          simp [commentsParseResponse, h]
        have h2 : List.filter (fun x => decide (x.postId % 2 = 0)) (r :: rs) =
            r :: List.filter (fun x => decide (x.postId % 2 = 0)) rs := by
          simp [List.filter_cons, h]
        rw [h1, h2, List.map_cons, List.map_cons, ih]
        congr 1
        by_cases hv : vC r <;> simp [hv, stripMetaC]
      · have h1 : commentsParseResponse vC (r :: rs) =
            commentsParseResponse vC rs := by
          simp [commentsParseResponse, h]
        have h2 : List.filter (fun x => decide (x.postId % 2 = 0)) (r :: rs) =
            List.filter (fun x => decide (x.postId % 2 = 0)) rs := by
          simp [List.filter_cons, h]
          omega
        rw [h1, h2, ih]
  · induction comments with
    | nil => rfl
    | cons r rs ih =>
      by_cases h : r.postId % 2 = 0
      · have h1 : commentsParseResponse vC (r :: rs) =
            (if vC r then r else { r with meta := true }) ::
              commentsParseResponse vC rs := by
          simp [commentsParseResponse, h]
        rw [h1, List.all_cons, ih, Bool.and_true]
        by_cases hv : vC r <;> simp [hv, h]
      · have h1 : commentsParseResponse vC (r :: rs) =
            commentsParseResponse vC rs := by
          simp [commentsParseResponse, h]
        rw [h1, ih]

end ETL
